import Mathlib

/-!
Verification of the r2sync one-way directory synchronizer.

The definitions below are a shallow embedding of the program in
src/unnamed/part_000 (the main.go of the repository): the path helpers it
uses from the Go standard library (strings.ReplaceAll, strings.Split,
path.Match, path.Clean, path.Dir, path.Join, filepath.Join, filepath.Rel),
the exclusion matcher shouldExclude, the fingerprint-based diff, and the
Sync orchestrator (remote inventory map, filepath.Walk traversal with
SkipDir pruning, upload decisions, claim-by-deletion of inventory keys,
and the delete phase).

Modelling conventions:
* Paths are strings over the Linux separator. Go byte strings are modelled
  as Lean strings; characters model runes (faithful for well-formed input).
* The filesystem subtree under the sync root is a finite tree (FSEntry /
  FSList); a file carries its size and the result that calcETag would
  produce for it: some etag, or none when the file cannot be opened or
  read to completion.
* The remote inventory is an association list keyed by object key, as
  produced by ListObjects (keys are unique in a Go map).
* Effects are modelled as an event trace: the remote listing, the
  construction of the admission semaphore, calcETag invocations, per-task
  log lines, and the storage mutations putObject / deleteObject.
  Upload/delete task bodies run concurrently in the program; the trace
  records one linearization (task events in admission order).
* Functions recursing on a decreasing string measure take an explicit
  fuel argument, always called with fuel larger than the measure, so that
  every definition is structurally recursive and kernel-computable.
-/

/-! ## Path helpers (Go standard library, as used by the program) -/

/-- normalizePath from the source: strings.ReplaceAll(path, BACKSLASH, SLASH);
the separator being a single character, this is a character map. -/
def normalizePath (p : String) : String :=
  String.mk (p.data.map (fun c => if c = '\\' then '/' else c))

/-- Split a character list on the slash separator, keeping empty segments
(the semantics of strings.Split(s, SLASH)). -/
def splitSeg : List Char → List (List Char)
  | [] => [[]]
  | '/' :: rest => [] :: splitSeg rest
  | c :: rest =>
      match splitSeg rest with
      | [] => [[c]]
      | s :: ss => (c :: s) :: ss

/-- Go strings.Split(s, SLASH). -/
def stringsSplit (s : String) : List String :=
  (splitSeg s.data).map String.mk

/-- Join segments with the slash separator. -/
def joinSegs : List (List Char) → List Char
  | [] => []
  | [s] => s
  | s :: rest => s ++ '/' :: joinSegs rest

/-- The segment-processing core of Go path.Clean: empty and dot segments
vanish; a dotdot segment pops a previous real segment, is dropped at the
root of a rooted path, and is kept otherwise. -/
def cleanSegs (rooted : Bool) (acc : List (List Char)) : List (List Char) → List (List Char)
  | [] => acc.reverse
  | s :: rest =>
      if s = [] ∨ s = ['.'] then cleanSegs rooted acc rest
      else if s = ['.', '.'] then
        match acc with
        | t :: acc2 =>
            if t = ['.', '.'] then cleanSegs rooted (s :: t :: acc2) rest
            else cleanSegs rooted acc2 rest
        | [] => if rooted then cleanSegs rooted [] rest else cleanSegs rooted [s] rest
  else cleanSegs rooted (s :: acc) rest

/-- Go path.Clean (also filepath.Clean on slash-separated Linux paths). -/
def pathClean (p : String) : String :=
  if p = "" then "."
  else
    let cs := p.data
    let rooted := cs.head? = some '/'
    let segs := cleanSegs rooted [] (splitSeg cs)
    if rooted then
      if segs = [] then "/" else String.mk ('/' :: joinSegs segs)
    else
      if segs = [] then "." else String.mk (joinSegs segs)

/-- Go path.Dir: everything up to the final slash, cleaned; the empty
directory part becomes the dot path. -/
def pathDir (p : String) : String :=
  pathClean (String.mk (p.data.reverse.dropWhile (fun c => c ≠ '/')).reverse)

/-- Go path.Join on two elements: non-empty elements joined with a slash,
then cleaned; all-empty input gives the empty string. -/
def pathJoin (a b : String) : String :=
  if a = "" then (if b = "" then "" else pathClean b)
  else if b = "" then pathClean a
  else pathClean (a ++ "/" ++ b)

/-- Go filepath.Join on two elements (Linux): identical to path.Join. -/
def goJoin (a b : String) : String :=
  pathJoin a b

/-- Drop the longest common prefix of two segment lists, returning the two
remainders (the element-scanning loop of filepath.Rel). -/
def dropCommonSegs : List (List Char) → List (List Char) → List (List Char) × List (List Char)
  | b :: bs, t :: ts =>
      if b = t then dropCommonSegs bs ts else (b :: bs, t :: ts)
  | bs, ts => (bs, ts)

/-- Go filepath.Rel on Linux (no volume names), segment-wise rendering of
the byte-scanning algorithm. The program discards the returned error, in
which case the Go zero value, the empty string, is used; the error branches
therefore return the empty string here. -/
def filepathRel (basepath targpath : String) : String :=
  let base := pathClean basepath
  let targ := pathClean targpath
  if targ = base then "."
  else
    let base2 := if base = "." then "" else base
    let baseRooted := base2.data.head? = some '/'
    let targRooted := targ.data.head? = some '/'
    if baseRooted ≠ targRooted then ""
    else
      let bsegs := if base2 = "" then [] else splitSeg base2.data
      let tsegs := splitSeg targ.data
      match dropCommonSegs bsegs tsegs with
      | ([], trest) => String.mk (joinSegs trest)
      | (b :: brest, trest) =>
          if b = ['.', '.'] then ""
          else String.mk (joinSegs (List.replicate (brest.length + 1) ['.', '.'] ++ trest))

/-! ## Glob matcher (Go path.Match) -/

/-- A single-character operator of a pattern chunk: a literal character,
the any-one-character operator, or a character class. -/
inductive ChunkOp where
  | lit (c : Char)
  | anyChar
  | charClass (negated : Bool) (ranges : List (Char × Char))
deriving DecidableEq, Repr

/-- Result of matching one chunk against the head of a name: the remainder
on success, a failure, or a malformed pattern (Go ErrBadPattern). -/
inductive ChunkRes where
  | ok (rest : List Char)
  | nomatch
  | bad
deriving DecidableEq, Repr

/-- getEsc from Go path/match.go: one possibly-escaped character of a
character class; a leading dash, closing bracket or end of chunk is
malformed, and the character must not end the chunk. -/
def getEsc : List Char → Option (Char × List Char)
  | [] => none
  | '-' :: _ => none
  | ']' :: _ => none
  | '\\' :: rest =>
      match rest with
      | [] => none
      | c :: rest2 => if rest2.isEmpty then none else some (c, rest2)
  | c :: rest => if rest.isEmpty then none else some (c, rest)

/-- The range-parsing loop of the character-class case of matchChunk:
collects lo-hi ranges until the closing bracket (which requires at least
one range); fuel bounds the iteration count, each step consuming at least
one character. -/
def parseRanges (fuel : Nat) (chunk : List Char) (nrange : Nat)
    (acc : List (Char × Char)) : Option (List (Char × Char) × List Char) :=
  match fuel with
  | 0 => none
  | fuel + 1 =>
    match chunk with
    | ']' :: rest =>
        if nrange > 0 then some (acc, rest)
        else none
    | _ =>
      match getEsc chunk with
      | none => none
      | some (lo, c1) =>
          match c1 with
          | '-' :: c2 =>
              match getEsc c2 with
              | none => none
              | some (hi, c3) => parseRanges fuel c3 (nrange + 1) (acc ++ [(lo, hi)])
          | _ => parseRanges fuel c1 (nrange + 1) (acc ++ [(lo, lo)])

/-- Scan a chunk into its operator list; a None result is a malformed
pattern. Go path.Match interleaves this scan with matching via a failed
flag whose sole effect is that syntax errors anywhere in the chunk are
reported even after the match has already failed; pre-scanning the whole
chunk is observationally the same. -/
def parseChunkOps (fuel : Nat) (chunk : List Char) : Option (List ChunkOp) :=
  match fuel with
  | 0 => none
  | fuel + 1 =>
    match chunk with
    | [] => some []
    | '[' :: rest =>
        let p :=
          match rest with
          | '^' :: r => (true, r)
          | _ => (false, rest)
        match parseRanges (p.2.length + 1) p.2 0 [] with
        | none => none
        | some (ranges, rest2) =>
            (parseChunkOps fuel rest2).map (ChunkOp.charClass p.1 ranges :: ·)
    | '?' :: rest => (parseChunkOps fuel rest).map (ChunkOp.anyChar :: ·)
    | '\\' :: rest =>
        match rest with
        | [] => none
        | c :: rest2 => (parseChunkOps fuel rest2).map (ChunkOp.lit c :: ·)
    | c :: rest => (parseChunkOps fuel rest).map (ChunkOp.lit c :: ·)

/-- Character-class membership: some range contains the character. -/
def inClass (x : Char) (ranges : List (Char × Char)) : Bool :=
  ranges.any (fun r => decide (r.1 ≤ x) && decide (x ≤ r.2))

/-- Match a parsed chunk against the head of a name; literals compare
exactly, the any-character operator refuses the separator, a class fails
when membership equals the negation flag. -/
def matchOps : List ChunkOp → List Char → Option (List Char)
  | [], s => some s
  | _ :: _, [] => none
  | ChunkOp.lit c :: ops, x :: s => if x = c then matchOps ops s else none
  | ChunkOp.anyChar :: ops, x :: s => if x = '/' then none else matchOps ops s
  | ChunkOp.charClass neg ranges :: ops, x :: s =>
      if inClass x ranges = neg then none else matchOps ops s

/-- matchChunk from Go path/match.go. -/
def matchChunk (chunk s : List Char) : ChunkRes :=
  match parseChunkOps (chunk.length + 1) chunk with
  | none => ChunkRes.bad
  | some ops =>
      match matchOps ops s with
      | some t => ChunkRes.ok t
      | none => ChunkRes.nomatch

/-- The leading-star stripping of scanChunk. -/
def takeStars : List Char → Bool × List Char
  | '*' :: rest => (true, (takeStars rest).2)
  | p => (false, p)

/-- The chunk-delimiting scan of scanChunk: advance to the next star that
is not inside a bracket expression, with escaped characters taken in
pairs; returns the chunk and the remaining pattern. -/
def scanChunkBody (inrange : Bool) : List Char → List Char × List Char
  | [] => ([], [])
  | '\\' :: rest =>
      match rest with
      | [] => (['\\'], [])
      | c :: rest2 =>
          let pr := scanChunkBody inrange rest2
          ('\\' :: c :: pr.1, pr.2)
  | '[' :: rest =>
      let pr := scanChunkBody true rest
      ('[' :: pr.1, pr.2)
  | ']' :: rest =>
      let pr := scanChunkBody false rest
      (']' :: pr.1, pr.2)
  | '*' :: rest =>
      if inrange then
        let pr := scanChunkBody inrange rest
        ('*' :: pr.1, pr.2)
      else ([], '*' :: rest)
  | c :: rest =>
      let pr := scanChunkBody inrange rest
      (c :: pr.1, pr.2)

/-- scanChunk from Go path/match.go: star flag, chunk, remaining pattern. -/
def scanChunk (pattern : List Char) : Bool × List Char × List Char :=
  let ts := takeStars pattern
  let pr := scanChunkBody false ts.2
  (ts.1, pr.1, pr.2)

/-- The syntax-validation loop Go Match runs on the remaining pattern
before returning a non-error false. -/
def validateRest (fuel : Nat) (pattern : List Char) : Bool :=
  match fuel with
  | 0 => false
  | fuel + 1 =>
    match pattern with
    | [] => true
    | _ :: _ =>
      let sc := scanChunk pattern
      match matchChunk sc.2.1 [] with
      | ChunkRes.bad => false
      | _ => validateRest fuel sc.2.2

/-- The star-retry loop of Go Match: retry the chunk at each later byte of
the name, not crossing a separator; some (some t) resumes the outer loop
with remainder t, some none falls through, none is a malformed pattern. -/
def starShift (chunk rest : List Char) : List Char → Option (Option (List Char))
  | [] => some none
  | c :: s =>
      if c = '/' then some none
      else
        match matchChunk chunk s with
        | ChunkRes.bad => none
        | ChunkRes.ok t =>
            if rest = [] ∧ t ≠ [] then starShift chunk rest s else some (some t)
        | ChunkRes.nomatch => starShift chunk rest s

/-- The main loop of Go path.Match; fuel bounds the outer iterations, each
of which consumes at least one pattern character. -/
def goMatchAux (fuel : Nat) (pattern name : List Char) : Option Bool :=
  match fuel with
  | 0 => none
  | fuel + 1 =>
    match pattern with
    | [] => some name.isEmpty
    | _ :: _ =>
      let sc := scanChunk pattern
      let star := sc.1
      let chunk := sc.2.1
      let rest := sc.2.2
      if star = true ∧ chunk = [] then some (!name.contains '/')
      else
        match matchChunk chunk name with
        | ChunkRes.bad => none
        | ChunkRes.ok t =>
            if t = [] ∨ rest ≠ [] then goMatchAux fuel rest t
            else if star then
              match starShift chunk rest name with
              | none => none
              | some (some t2) => goMatchAux fuel rest t2
              | some none => if validateRest (rest.length + 1) rest then some false else none
            else if validateRest (rest.length + 1) rest then some false else none
        | ChunkRes.nomatch =>
            if star then
              match starShift chunk rest name with
              | none => none
              | some (some t2) => goMatchAux fuel rest t2
              | some none => if validateRest (rest.length + 1) rest then some false else none
            else if validateRest (rest.length + 1) rest then some false else none

/-- Go path.Match: some matched on success, none for ErrBadPattern. -/
def pathMatch (pattern name : String) : Option Bool :=
  goMatchAux (pattern.data.length + 1) pattern.data name.data

example : pathMatch "logs" "logs" = some true := by decide
example : pathMatch "logs" "src" = some false := by decide
example : pathMatch "logs" "src/logs" = some false := by decide
example : pathMatch "*.tmp" "a.tmp" = some true := by decide
example : pathMatch "*.tmp" "a/b.tmp" = some false := by decide
example : pathMatch "a/*" "a/b" = some true := by decide
example : pathMatch "[a-c]x" "bx" = some true := by decide
example : pathMatch "[^a-c]x" "bx" = some false := by decide
example : pathMatch "[" "x" = none := by decide
example : pathMatch "a[" "a" = none := by decide
example : pathMatch "*" "abc" = some true := by decide
example : pathMatch "*" "a/b" = some false := by decide
example : pathMatch "a*b" "axxb" = some true := by decide
example : pathMatch "a*b*" "axbyz" = some true := by decide
example : pathMatch "ab[" "xy" = none := by decide
example : pathMatch "?" "a" = some true := by decide
example : pathMatch "?" "/" = some false := by decide

/-! ## Path helper sanity checks -/

example : pathClean "" = "." := by decide
example : pathClean "data/" = "data" := by decide
example : pathClean "/a/../.." = "/" := by decide
example : pathClean "a/../../b" = "../b" := by decide
example : pathDir "data" = "." := by decide
example : pathDir "data/a.txt" = "data" := by decide
example : pathDir "/local/dir" = "/local" := by decide
example : pathDir "." = "." := by decide
example : goJoin "." "a.txt" = "a.txt" := by decide
example : goJoin "data" "a.txt" = "data/a.txt" := by decide
example : pathJoin "pre" "a.txt" = "pre/a.txt" := by decide
example : pathJoin "" "a.txt" = "a.txt" := by decide
example : filepathRel "data" "data/a.txt" = "a.txt" := by decide
example : filepathRel "." "a.txt" = "a.txt" := by decide
example : filepathRel "data" "data/sub/b.txt" = "sub/b.txt" := by decide

/-! ## Exclusion matcher -/

/-- shouldExclude from the source: a path is excluded when some pattern
matches the full path, or matches some segment of the path split on the
separator; a pattern whose match errors contributes nothing. -/
def shouldExclude (fullpath : String) (excludePatterns : List String) : Bool :=
  excludePatterns.any (fun pattern =>
    decide (pathMatch pattern fullpath = some true) ||
      (stringsSplit fullpath).any (fun part => decide (pathMatch pattern part = some true)))

example : shouldExclude "src/logs" ["logs"] = true := by decide
example : shouldExclude "src/logs/a.txt" ["logs"] = true := by decide
example : shouldExclude "src/a.txt" ["logs"] = false := by decide
example : shouldExclude "src/a.tmp" ["logs", "*.tmp"] = true := by decide
example : shouldExclude "src/a.txt" ["["] = false := by decide

/-! ## Data model -/

/-- Remote object metadata as kept by the inventory map (FileInfo in the
source; the LastModified field is never consulted by the sync logic and is
omitted). -/
structure RFileInfo where
  size : Int
  etag : String
deriving DecidableEq, Repr

/-! A local filesystem subtree. A file carries its size and the result
calcETag would produce: some etag, or none when the file cannot be opened
or read to completion (the FingerprintError case). -/
mutual
inductive FSEntry where
  | file (name : String) (size : Int) (etag : Option String)
  | dir (name : String) (children : FSList)
deriving Repr

inductive FSList where
  | nil
  | cons (e : FSEntry) (rest : FSList)
deriving Repr
end

/-- Name of an entry (the directory-listing name filepath.Walk joins onto
the parent path). -/
def FSEntry.name : FSEntry → String
  | .file n _ _ => n
  | .dir n _ => n

/-- Build an FSList from a list literal. -/
def fsList : List FSEntry → FSList
  | [] => FSList.nil
  | e :: rest => FSList.cons e (fsList rest)

/-- A classification outcome of the diff engine: an upload task for a
local file, a skip (the needUpload = false outcome, recorded here to make
the classification observable), or a delete task for a stale remote key. -/
inductive Decision where
  | upload (localPath remoteKey : String)
  | skip (localPath remoteKey : String)
  | deleteKey (remoteKey : String)
deriving DecidableEq, Repr

/-- Abstract events recorded while walking: a fingerprint computation, an
upload task admitted for execution, a delete task admitted for execution.
Task events expand to concrete log/storage events once the dryRun flag is
applied (the flag is only read inside the task bodies). -/
inductive AEvent where
  | calcETagCall (path : String)
  | uploadTask (localPath remoteKey : String)
  | deleteTask (remoteKey : String)
deriving DecidableEq, Repr

/-- Concrete observable events of one sync run. -/
inductive Event where
  | listObjects (pre : String)
  | mkSemaphore (n : Int)
  | calcETagCall (path : String)
  | uploadingLog (localPath remoteKey : String)
  | dryUploadLog (localPath remoteKey : String)
  | putObject (remoteKey : String)
  | uploadDoneLog (remoteKey : String)
  | deletingLog (remoteKey : String)
  | dryDeleteLog (remoteKey : String)
  | deleteObject (remoteKey : String)
  | deleteDoneLog (remoteKey : String)
deriving DecidableEq, Repr

/-- The error that aborts the walk: calcETag failed on the named file (the
open or read error the callback returns, which Sync wraps and returns). -/
inductive SyncError where
  | fingerprint (path : String)
deriving DecidableEq, Repr

/-- Remote-inventory lookup (Go map read). -/
def lookupKey (m : List (String × RFileInfo)) (k : String) : Option RFileInfo :=
  (m.find? (fun p => p.1 = k)).map (fun p => p.2)

/-- Remote-inventory key removal (Go delete; keys are unique in a map, so
removing every pair with the key is the same operation). -/
def eraseKey (m : List (String × RFileInfo)) (k : String) : List (String × RFileInfo) :=
  m.filter (fun p => ¬ p.1 = k)

/-- The walking state of one run: the not-yet-claimed remote inventory,
the classifications made so far, the abstract events so far, and the
uploadCount counter. -/
structure SyncState where
  remote : List (String × RFileInfo)
  decisions : List Decision
  events : List AEvent
  uploadCount : Nat
deriving DecidableEq, Repr

/-- The configuration the walk callback closes over (localPath,
remotePath, recursive, sizeOnly, excludePatterns); deleteSync, dryRun and
concurrency are only read outside the callback. -/
structure WalkConfig where
  localPath : String
  remotePath : String
  recursive : Bool
  sizeOnly : Bool
  excludePatterns : List String
deriving DecidableEq, Repr

/-- Full configuration of Sync. -/
structure SyncConfig where
  localPath : String
  remotePath : String
  deleteSync : Bool
  dryRun : Bool
  recursive : Bool
  sizeOnly : Bool
  excludePatterns : List String
deriving DecidableEq, Repr

/-- The walk-callback part of a SyncConfig. -/
def SyncConfig.walkConfig (cfg : SyncConfig) : WalkConfig :=
  { localPath := cfg.localPath
    remotePath := cfg.remotePath
    recursive := cfg.recursive
    sizeOnly := cfg.sizeOnly
    excludePatterns := cfg.excludePatterns }

/-! ## Diff engine and walk -/

/-- The needUpload classification of the source (lines 259-272): an absent
key uploads; in size-only mode a present key uploads exactly when sizes
differ; otherwise the local fingerprint is required (error when it cannot
be computed) and the file uploads when size or fingerprint differ. -/
def diffNeedUpload (sizeOnly : Bool) (size : Int) (etag : Option String)
    (ro : Option RFileInfo) : Except Unit Bool :=
  match ro with
  | none => Except.ok true
  | some ri =>
      if sizeOnly then Except.ok (decide (size ≠ ri.size))
      else
        match etag with
        | none => Except.error ()
        | some e => Except.ok (decide (size ≠ ri.size) || decide (e ≠ ri.etag))

/-- remoteKey construction of the source: filepath.Rel from the sync root,
normalized, joined onto the remote prefix with path.Join. -/
def computeRemoteKey (wcfg : WalkConfig) (fp : String) : String :=
  pathJoin wcfg.remotePath (normalizePath (filepathRel wcfg.localPath fp))

/-- Processing of one candidate file by the walk callback: look the key up,
compute the fingerprint when needed (full mode and key present), classify,
admit an upload task when needed, and claim the key from the inventory
regardless of outcome. A fingerprint failure is returned as the callback
error (aborting the walk). -/
def processFile (wcfg : WalkConfig) (fp : String) (size : Int)
    (etag : Option String) (st : SyncState) : SyncState × Option SyncError :=
  let remoteKey := computeRemoteKey wcfg fp
  let ro := lookupKey st.remote remoteKey
  let st1 :=
    if !wcfg.sizeOnly && ro.isSome then
      { st with events := st.events ++ [AEvent.calcETagCall fp] }
    else st
  match diffNeedUpload wcfg.sizeOnly size etag ro with
  | Except.error _ => (st1, some (SyncError.fingerprint fp))
  | Except.ok needUpload =>
      let st2 :=
        if needUpload then
          { st1 with
            decisions := st1.decisions ++ [Decision.upload fp remoteKey]
            uploadCount := st1.uploadCount + 1
            events := st1.events ++ [AEvent.uploadTask fp remoteKey] }
        else { st1 with decisions := st1.decisions ++ [Decision.skip fp remoteKey] }
      ({ st2 with remote := eraseKey st2.remote remoteKey }, none)

/-! The filepath.Walk traversal with the Sync callback inlined. walkEntry
is the callback applied to one visited path followed by the descent into a
directory; walkChildren visits a directory's entries in order, stopping at
the first callback error (which filepath.Walk propagates). The callback
normalizes the visited path, prunes excluded paths (SkipDir on
directories, nil on files), prunes on the non-recursive parent-directory
test the same way, and otherwise processes files. -/
mutual
def walkEntry (wcfg : WalkConfig) (fullpath : String) (e : FSEntry)
    (st : SyncState) : SyncState × Option SyncError :=
  let fp := normalizePath fullpath
  if shouldExclude fp wcfg.excludePatterns then (st, none)
  else if wcfg.recursive = false ∧ pathDir fp ≠ wcfg.localPath then (st, none)
  else
    match e with
    | FSEntry.file _ size etag => processFile wcfg fp size etag st
    | FSEntry.dir _ children => walkChildren wcfg fullpath children st

def walkChildren (wcfg : WalkConfig) (dirPath : String) (es : FSList)
    (st : SyncState) : SyncState × Option SyncError :=
  match es with
  | FSList.nil => (st, none)
  | FSList.cons e rest =>
      match walkEntry wcfg (goJoin dirPath e.name) e st with
      | (st2, some err) => (st2, some err)
      | (st2, none) => walkChildren wcfg dirPath rest st2
end

/-- The listing-plus-walk phase of Sync: the callback is applied to the
root directory first (where the exclusion and non-recursive checks apply
exactly as to any other path), then to the subtree. -/
def syncRunAux (wcfg : WalkConfig) (root : FSList)
    (remote : List (String × RFileInfo)) : SyncState × Option SyncError :=
  let st0 : SyncState := { remote := remote, decisions := [], events := [], uploadCount := 0 }
  let fp := normalizePath wcfg.localPath
  if shouldExclude fp wcfg.excludePatterns then (st0, none)
  else if wcfg.recursive = false ∧ pathDir fp ≠ wcfg.localPath then (st0, none)
  else walkChildren wcfg wcfg.localPath root st0

/-- Expansion of one abstract event into the concrete events of the task
body: the pre-admission uploading/deleting log, then either the dry-run
log or the storage mutation followed by the completion log. -/
def expandEvent (dryRun : Bool) : AEvent → List Event
  | AEvent.calcETagCall p => [Event.calcETagCall p]
  | AEvent.uploadTask lp k =>
      Event.uploadingLog lp k ::
        (if dryRun then [Event.dryUploadLog lp k]
         else [Event.putObject k, Event.uploadDoneLog k])
  | AEvent.deleteTask k =>
      Event.deletingLog k ::
        (if dryRun then [Event.dryDeleteLog k]
         else [Event.deleteObject k, Event.deleteDoneLog k])

/-- Expansion of a trace of abstract events. -/
def expandEvents (dryRun : Bool) (aes : List AEvent) : List Event :=
  aes.foldr (fun ae acc => expandEvent dryRun ae ++ acc) []

/-- The events Sync emits before the walk: the remote listing, then the
construction of the admission semaphore with the configured concurrency
(no validation between the two). -/
def preEvents (cfg : SyncConfig) (concurrency : Int) : List Event :=
  [Event.listObjects cfg.remotePath, Event.mkSemaphore concurrency]

/-- The observable outcome of one Sync run. -/
structure SyncResult where
  res : Except SyncError Unit
  decisions : List Decision
  events : List Event
  uploadCount : Nat
  deleteCount : Nat
  finalRemote : List (String × RFileInfo)
deriving Repr

/-- Sync from the source (success path of the remote listing): list the
inventory, build the semaphore, walk and diff, and if the walk succeeded
and delete mode is on and unclaimed keys remain, admit a delete task per
unclaimed key. A walk error is wrapped and returned, skipping the delete
phase. -/
def syncRun (cfg : SyncConfig) (concurrency : Int) (root : FSList)
    (remote : List (String × RFileInfo)) : SyncResult :=
  match syncRunAux cfg.walkConfig root remote with
  | (st, some e) =>
      { res := Except.error e
        decisions := st.decisions
        events := preEvents cfg concurrency ++ expandEvents cfg.dryRun st.events
        uploadCount := st.uploadCount
        deleteCount := 0
        finalRemote := st.remote }
  | (st, none) =>
      if cfg.deleteSync = true ∧ st.remote ≠ [] then
        { res := Except.ok ()
          decisions := st.decisions ++ (st.remote.map (fun p => p.1)).map Decision.deleteKey
          events := preEvents cfg concurrency ++
            expandEvents cfg.dryRun (st.events ++ (st.remote.map (fun p => p.1)).map AEvent.deleteTask)
          uploadCount := st.uploadCount
          deleteCount := (st.remote.map (fun p => p.1)).length
          finalRemote := st.remote }
      else
        { res := Except.ok ()
          decisions := st.decisions
          events := preEvents cfg concurrency ++ expandEvents cfg.dryRun st.events
          uploadCount := st.uploadCount
          deleteCount := 0
          finalRemote := st.remote }

/-! ## Shape relation, event predicates, spec-side definitions -/

/-! Same-shape relation on trees: equal names, sizes and directory
structure, arbitrary fingerprints. Two trees in this relation describe
local trees whose files differ only in content (or readability). -/
mutual
def sameShape : FSEntry → FSEntry → Bool
  | FSEntry.file n1 s1 _, FSEntry.file n2 s2 _ => n1 == n2 && s1 == s2
  | FSEntry.dir n1 c1, FSEntry.dir n2 c2 => n1 == n2 && sameShapeList c1 c2
  | _, _ => false

def sameShapeList : FSList → FSList → Bool
  | FSList.nil, FSList.nil => true
  | FSList.cons e1 r1, FSList.cons e2 r2 => sameShape e1 e2 && sameShapeList r1 r2
  | _, _ => false
end

/-- Is this abstract event an admitted upload task? -/
def isUploadTask : AEvent → Bool
  | AEvent.uploadTask _ _ => true
  | _ => false

/-- Is this abstract event an admitted delete task? -/
def isDeleteTask : AEvent → Bool
  | AEvent.deleteTask _ => true
  | _ => false

/-- Is this concrete event the pre-transfer log line of an upload task? -/
def isUploadingLog : Event → Bool
  | Event.uploadingLog _ _ => true
  | _ => false

/-- Is this concrete event the pre-delete log line of a delete task? -/
def isDeletingLog : Event → Bool
  | Event.deletingLog _ => true
  | _ => false

/-- The identity-equivalence invariant as worded by the spec, for
comparison with the classification of the code: a local/remote pair is the
same file iff the size matches and (size-only mode is enabled or the
content fingerprints match); an absent remote counterpart is never the
same. -/
def specSameFile (sizeOnly : Bool) (localSize : Int) (localEtag : String)
    (ro : Option RFileInfo) : Bool :=
  match ro with
  | none => false
  | some ri => decide (localSize = ri.size) && (sizeOnly || decide (localEtag = ri.etag))

/-- The claiming invariant of the diff: any candidate already classified
(uploaded or skipped) has had its remote key removed from the inventory. -/
def ClaimInv (st : SyncState) : Prop :=
  ∀ lp rk, (Decision.upload lp rk ∈ st.decisions ∨ Decision.skip lp rk ∈ st.decisions) →
    lookupKey st.remote rk = none

/-! ## Concrete instances used by counterexamples and witnesses -/

/-- A full-mode run whose only candidate file cannot be fingerprinted and
whose key is present remotely; a further stale remote key would be up for
deletion. -/
def cfgC1 : SyncConfig :=
  { localPath := "data", remotePath := "pre", deleteSync := true, dryRun := false,
    recursive := true, sizeOnly := false, excludePatterns := [] }

def treeC1 : FSList := fsList [FSEntry.file "a.txt" 1 none]

def remoteC1 : List (String × RFileInfo) :=
  [("pre/a.txt", { size := 1, etag := "\"aa\"" }),
   ("pre/stale.txt", { size := 2, etag := "\"bb\"" })]

def stC1 : SyncState :=
  { remote := remoteC1, decisions := [], events := [], uploadCount := 0 }

/-- A delete-mode run in which the pattern excludes the directory logs but
not the file inside it, and the remote holds the corresponding key. -/
def cfgC2 : SyncConfig :=
  { localPath := "src", remotePath := "pre", deleteSync := true, dryRun := false,
    recursive := true, sizeOnly := true, excludePatterns := ["logs"] }

def treeC2 : FSList :=
  fsList [FSEntry.dir "logs" (fsList [FSEntry.file "a.txt" 1 none])]

def remoteC2 : List (String × RFileInfo) :=
  [("pre/logs/a.txt", { size := 1, etag := "\"e\"" })]

def stC2 : SyncState :=
  { remote := remoteC2, decisions := [], events := [], uploadCount := 0 }

/-- A run given concurrency zero. -/
def cfgC3 : SyncConfig :=
  { localPath := ".", remotePath := "pre", deleteSync := false, dryRun := false,
    recursive := true, sizeOnly := false, excludePatterns := [] }

/-- A non-recursive run rooted at the directory data containing one file. -/
def cfgC4 : SyncConfig :=
  { localPath := "data", remotePath := "pre", deleteSync := false, dryRun := false,
    recursive := false, sizeOnly := false, excludePatterns := [] }

/-- The same non-recursive run rooted at the dot path. -/
def cfgC4dot : SyncConfig :=
  { cfgC4 with localPath := "." }

def treeC4 : FSList := fsList [FSEntry.file "a.txt" 1 (some "\"x\"")]

/-- A delete-mode size-only run with one in-sync candidate and one stale
remote key. -/
def cfgC6 : SyncConfig :=
  { localPath := ".", remotePath := "pre", deleteSync := true, dryRun := false,
    recursive := true, sizeOnly := true, excludePatterns := [] }

def treeC6 : FSList := fsList [FSEntry.file "a.txt" 1 none]

def remoteC6 : List (String × RFileInfo) :=
  [("pre/a.txt", { size := 1, etag := "\"x\"" }),
   ("pre/old.txt", { size := 5, etag := "\"y\"" })]

/-- A dry-run delete-mode full-mode run with one new file, one changed
file and one stale remote key (used to witness the dry-run frame). -/
def cfgC8 : SyncConfig :=
  { localPath := ".", remotePath := "pre", deleteSync := true, dryRun := false,
    recursive := true, sizeOnly := false, excludePatterns := [] }

def treeC8 : FSList :=
  fsList [FSEntry.file "a.txt" 1 (some "\"x\""), FSEntry.file "b.txt" 2 (some "\"y\"")]

def remoteC8 : List (String × RFileInfo) :=
  [("pre/b.txt", { size := 2, etag := "\"z\"" }),
   ("pre/old.txt", { size := 5, etag := "\"w\"" })]

/-- A size-only run over two trees of the same shape whose single file has
different (even unreadable) contents. -/
def cfgC10 : SyncConfig :=
  { localPath := ".", remotePath := "pre", deleteSync := true, dryRun := false,
    recursive := true, sizeOnly := true, excludePatterns := [] }

def treeC10a : FSList := fsList [FSEntry.file "a.txt" 1 (some "\"one\"")]

def treeC10b : FSList := fsList [FSEntry.file "a.txt" 1 none]

def remoteC10 : List (String × RFileInfo) :=
  [("pre/a.txt", { size := 1, etag := "\"two\"" })]

/-- One-step effect description of processFile, used by the walk
invariants: either the candidate errored (state unchanged up to a possible
calcETagCall event), or it was classified, its key erased from the
inventory, and exactly one upload or skip decision appended (with an
uploadTask event and a counter increment in the upload case); a
calcETagCall event can only occur in full mode. -/
def ProcessStep (wcfg : WalkConfig) (fp : String) (st r : SyncState) : Prop :=
  (r.remote = st.remote ∧ r.decisions = st.decisions ∧ r.uploadCount = st.uploadCount ∧
    (r.events = st.events ∨
      (wcfg.sizeOnly = false ∧ r.events = st.events ++ [AEvent.calcETagCall fp]))) ∨
  (r.remote = eraseKey st.remote (computeRemoteKey wcfg fp) ∧
    ((r.decisions = st.decisions ++ [Decision.upload fp (computeRemoteKey wcfg fp)] ∧
      r.uploadCount = st.uploadCount + 1 ∧
      (r.events = st.events ++ [AEvent.uploadTask fp (computeRemoteKey wcfg fp)] ∨
        (wcfg.sizeOnly = false ∧
          r.events = st.events ++
            [AEvent.calcETagCall fp, AEvent.uploadTask fp (computeRemoteKey wcfg fp)]))) ∨
     (r.decisions = st.decisions ++ [Decision.skip fp (computeRemoteKey wcfg fp)] ∧
      r.uploadCount = st.uploadCount ∧
      (r.events = st.events ∨
        (wcfg.sizeOnly = false ∧ r.events = st.events ++ [AEvent.calcETagCall fp])))))

/-! # Theorems -/

/-! ## Association-list lemmas -/

theorem lookupKey_eraseKey_self (m : List (String × RFileInfo)) (k : String) :
    lookupKey (eraseKey m k) k = none := by
  induction m with
  | nil => rfl
  | cons p rest ih =>
      by_cases h : p.1 = k
      · have he : eraseKey (p :: rest) k = eraseKey rest k := by
          simp [eraseKey, List.filter_cons, h]
        rw [he]
        exact ih
      · have he : eraseKey (p :: rest) k = p :: eraseKey rest k := by
          simp [eraseKey, List.filter_cons, h]
        have hl : lookupKey (p :: eraseKey rest k) k = lookupKey (eraseKey rest k) k := by
          simp [lookupKey, List.find?_cons, h]
        rw [he, hl]
        exact ih

theorem lookupKey_eraseKey_of_none (m : List (String × RFileInfo)) (k k2 : String)
    (h : lookupKey m k = none) : lookupKey (eraseKey m k2) k = none := by
  induction m with
  | nil => rfl
  | cons p rest ih =>
      have hp : ¬ p.1 = k := by
        intro hk
        simp [lookupKey, List.find?_cons, hk] at h
      have hr : lookupKey rest k = none := by
        simpa [lookupKey, List.find?_cons, hp] using h
      by_cases h2 : p.1 = k2
      · simpa [eraseKey, List.filter_cons, h2] using ih hr
      · simpa [eraseKey, lookupKey, List.filter_cons, List.find?_cons, h2, hp] using ih hr

/-! ## processFile lemmas -/

theorem processFile_error (wcfg : WalkConfig) (fp : String) (size : Int)
    (st : SyncState) (ri : RFileInfo) (hso : wcfg.sizeOnly = false)
    (hro : lookupKey st.remote (computeRemoteKey wcfg fp) = some ri) :
    processFile wcfg fp size none st =
      ({ st with events := st.events ++ [AEvent.calcETagCall fp] },
        some (SyncError.fingerprint fp)) := by
  simp [processFile, hro, hso, diffNeedUpload]

theorem processFile_sizeOnly_etag (wcfg : WalkConfig) (fp : String) (size : Int)
    (etag1 etag2 : Option String) (st : SyncState) (hso : wcfg.sizeOnly = true) :
    processFile wcfg fp size etag1 st = processFile wcfg fp size etag2 st := by
  cases hro : lookupKey st.remote (computeRemoteKey wcfg fp) <;>
    simp [processFile, hro, hso, diffNeedUpload]

theorem processFile_decisions (wcfg : WalkConfig) (fp : String) (size : Int)
    (etag : Option String) (st : SyncState) :
    ∀ d, d ∈ (processFile wcfg fp size etag st).1.decisions →
      d ∈ st.decisions ∨ d = Decision.upload fp (computeRemoteKey wcfg fp) ∨
        d = Decision.skip fp (computeRemoteKey wcfg fp) := by
  intro d hd
  simp only [processFile] at hd
  split at hd
  · split at hd <;> simp_all
  · split at hd <;> split at hd <;> simp_all <;> tauto


theorem processFile_spec (wcfg : WalkConfig) (fp : String) (size : Int)
    (etag : Option String) (st : SyncState) :
    ProcessStep wcfg fp st (processFile wcfg fp size etag st).1 := by
  cases hso : wcfg.sizeOnly <;>
    cases hsome : (lookupKey st.remote (computeRemoteKey wcfg fp)).isSome <;>
      cases hdiff : diffNeedUpload wcfg.sizeOnly size etag
          (lookupKey st.remote (computeRemoteKey wcfg fp)) with
  | _ =>
      rw [hso] at hdiff
      rename_i payload
      cases payload <;>
        simp [ProcessStep, processFile, hdiff, hso, hsome, List.append_assoc]

theorem step_claimInv {wcfg : WalkConfig} {fp : String} {st r : SyncState}
    (hps : ProcessStep wcfg fp st r) (h : ClaimInv st) : ClaimInv r := by
  intro lp rk hmem
  rcases hps with ⟨hrem, hdec, -, -⟩ | ⟨hrem, hcase⟩
  · rw [hrem]
    rw [hdec] at hmem
    exact h lp rk hmem
  · rcases hcase with ⟨hdec, -, -⟩ | ⟨hdec, -, -⟩ <;> rw [hrem] <;> rw [hdec] at hmem <;>
      rcases hmem with hmem | hmem <;> rcases List.mem_append.1 hmem with hmem | hmem
    · exact lookupKey_eraseKey_of_none _ _ _ (h lp rk (Or.inl hmem))
    · simp only [List.mem_singleton, Decision.upload.injEq] at hmem
      rw [hmem.2]
      exact lookupKey_eraseKey_self _ _
    · exact lookupKey_eraseKey_of_none _ _ _ (h lp rk (Or.inr hmem))
    · simp at hmem
    · exact lookupKey_eraseKey_of_none _ _ _ (h lp rk (Or.inl hmem))
    · simp at hmem
    · exact lookupKey_eraseKey_of_none _ _ _ (h lp rk (Or.inr hmem))
    · simp only [List.mem_singleton, Decision.skip.injEq] at hmem
      rw [hmem.2]
      exact lookupKey_eraseKey_self _ _

theorem step_noDelete {wcfg : WalkConfig} {fp : String} {st r : SyncState}
    (hps : ProcessStep wcfg fp st r)
    (h : ∀ k, Decision.deleteKey k ∉ st.decisions) :
    ∀ k, Decision.deleteKey k ∉ r.decisions := by
  intro k hmem
  rcases hps with ⟨-, hdec, -, -⟩ | ⟨-, hcase⟩
  · rw [hdec] at hmem
    exact h k hmem
  · rcases hcase with ⟨hdec, -, -⟩ | ⟨hdec, -, -⟩ <;> rw [hdec] at hmem <;>
      rcases List.mem_append.1 hmem with hmem | hmem <;>
      first
        | exact h k hmem
        | simp at hmem

theorem step_countUpload {wcfg : WalkConfig} {fp : String} {st r : SyncState}
    (hps : ProcessStep wcfg fp st r)
    (h : st.events.countP isUploadTask = st.uploadCount) :
    r.events.countP isUploadTask = r.uploadCount := by
  rcases hps with ⟨-, -, hcnt, hev⟩ | ⟨-, hcase⟩
  · rcases hev with hev | ⟨-, hev⟩ <;> rw [hev, hcnt]
    · exact h
    · simpa [List.countP_append, isUploadTask] using h
  · rcases hcase with ⟨-, hcnt, hev⟩ | ⟨-, hcnt, hev⟩
    · rcases hev with hev | ⟨-, hev⟩ <;> rw [hev, hcnt] <;>
        simpa [List.countP_append, List.countP_cons, isUploadTask] using h
    · rcases hev with hev | ⟨-, hev⟩ <;> rw [hev, hcnt]
      · exact h
      · simpa [List.countP_append, isUploadTask] using h

theorem step_noDeleteTask {wcfg : WalkConfig} {fp : String} {st r : SyncState}
    (hps : ProcessStep wcfg fp st r)
    (h : ∀ k, AEvent.deleteTask k ∉ st.events) :
    ∀ k, AEvent.deleteTask k ∉ r.events := by
  intro k hmem
  rcases hps with ⟨-, -, -, hev⟩ | ⟨-, hcase⟩
  · rcases hev with hev | ⟨-, hev⟩ <;> rw [hev] at hmem
    · exact h k hmem
    · rcases List.mem_append.1 hmem with hmem | hmem
      · exact h k hmem
      · simp at hmem
  · rcases hcase with ⟨-, -, hev⟩ | ⟨-, -, hev⟩ <;>
      rcases hev with hev | ⟨-, hev⟩ <;> rw [hev] at hmem <;>
      first
        | exact h k hmem
        | (rcases List.mem_append.1 hmem with hmem | hmem
           · exact h k hmem
           · simp at hmem)

theorem step_noCalc {wcfg : WalkConfig} {fp : String} {st r : SyncState}
    (hps : ProcessStep wcfg fp st r) (hso : wcfg.sizeOnly = true)
    (h : ∀ p, AEvent.calcETagCall p ∉ st.events) :
    ∀ p, AEvent.calcETagCall p ∉ r.events := by
  intro p hmem
  rcases hps with ⟨-, -, -, hev⟩ | ⟨-, hcase⟩
  · rcases hev with hev | ⟨hf, -⟩
    · rw [hev] at hmem
      exact h p hmem
    · rw [hso] at hf
      cases hf
  · rcases hcase with ⟨-, -, hev⟩ | ⟨-, -, hev⟩ <;>
      rcases hev with hev | ⟨hf, -⟩
    · rw [hev] at hmem
      rcases List.mem_append.1 hmem with hmem | hmem
      · exact h p hmem
      · simp at hmem
    · rw [hso] at hf
      cases hf
    · rw [hev] at hmem
      exact h p hmem
    · rw [hso] at hf
      cases hf

/-! ## Walk invariants -/

mutual
theorem walkEntry_inv (wcfg : WalkConfig) (P : SyncState → Prop)
    (hproc : ∀ fp size etag st, P st → P (processFile wcfg fp size etag st).1)
    (e : FSEntry) (fullpath : String) (st : SyncState) (h : P st) :
    P (walkEntry wcfg fullpath e st).1 := by
  cases e with
  | file n size etag =>
      simp only [walkEntry.eq_def]
      split
      · exact h
      · split
        · exact h
        · exact hproc _ _ _ _ h
  | dir n children =>
      simp only [walkEntry.eq_def]
      split
      · exact h
      · split
        · exact h
        · exact walkChildren_inv wcfg P hproc children fullpath st h

theorem walkChildren_inv (wcfg : WalkConfig) (P : SyncState → Prop)
    (hproc : ∀ fp size etag st, P st → P (processFile wcfg fp size etag st).1)
    (es : FSList) (dirPath : String) (st : SyncState) (h : P st) :
    P (walkChildren wcfg dirPath es st).1 := by
  cases es with
  | nil =>
      rw [walkChildren.eq_def]
      exact h
  | cons e rest =>
      have h1 := walkEntry_inv wcfg P hproc e (goJoin dirPath e.name) st h
      rw [walkChildren.eq_def]
      show P (match walkEntry wcfg (goJoin dirPath e.name) e st with
        | (st2, some err) => (st2, some err)
        | (st2, none) => walkChildren wcfg dirPath rest st2).1
      cases hw : walkEntry wcfg (goJoin dirPath e.name) e st with
      | mk st2 oerr =>
          rw [hw] at h1
          cases oerr with
          | none => exact walkChildren_inv wcfg P hproc rest dirPath st2 h1
          | some err => exact h1
end

theorem syncRunAux_inv (wcfg : WalkConfig) (P : SyncState → Prop)
    (hproc : ∀ fp size etag st, P st → P (processFile wcfg fp size etag st).1)
    (root : FSList) (remote : List (String × RFileInfo))
    (h0 : P { remote := remote, decisions := [], events := [], uploadCount := 0 }) :
    P (syncRunAux wcfg root remote).1 := by
  simp only [syncRunAux]
  split
  · exact h0
  · split
    · exact h0
    · exact walkChildren_inv wcfg P hproc root wcfg.localPath _ h0

/-! ## Shape lemmas: size-only runs are independent of file contents -/

theorem sameShape_name {e1 e2 : FSEntry} (h : sameShape e1 e2 = true) :
    e1.name = e2.name := by
  cases e1 <;> cases e2 <;> simp [sameShape, FSEntry.name] at h ⊢ <;> tauto

theorem processFile_sizeOnly_congr (wcfg : WalkConfig) (fp : String) (size : Int)
    (etag1 etag2 : Option String) (st : SyncState) (hso : wcfg.sizeOnly = true) :
    processFile wcfg fp size etag1 st = processFile wcfg fp size etag2 st :=
  processFile_sizeOnly_etag wcfg fp size etag1 etag2 st hso

mutual
theorem walkEntry_shape (wcfg : WalkConfig) (hso : wcfg.sizeOnly = true)
    (e1 e2 : FSEntry) (fullpath : String) (st : SyncState)
    (hsh : sameShape e1 e2 = true) :
    walkEntry wcfg fullpath e1 st = walkEntry wcfg fullpath e2 st := by
  cases e1 with
  | file n1 s1 t1 =>
      cases e2 with
      | file n2 s2 t2 =>
          have hs : s1 = s2 := by
            simp [sameShape] at hsh
            exact hsh.2
          simp only [walkEntry.eq_def]
          rw [hs]
          split
          · rfl
          · split
            · rfl
            · exact processFile_sizeOnly_congr wcfg _ s2 t1 t2 st hso
      | dir n2 c2 => simp [sameShape] at hsh
  | dir n1 c1 =>
      cases e2 with
      | file n2 s2 t2 => simp [sameShape] at hsh
      | dir n2 c2 =>
          have hc : sameShapeList c1 c2 = true := by
            simp [sameShape] at hsh
            exact hsh.2
          simp only [walkEntry.eq_def]
          split
          · rfl
          · split
            · rfl
            · exact walkChildren_shape wcfg hso c1 c2 fullpath st hc

theorem walkChildren_shape (wcfg : WalkConfig) (hso : wcfg.sizeOnly = true)
    (es1 es2 : FSList) (dirPath : String) (st : SyncState)
    (hsh : sameShapeList es1 es2 = true) :
    walkChildren wcfg dirPath es1 st = walkChildren wcfg dirPath es2 st := by
  cases es1 with
  | nil =>
      cases es2 with
      | nil => rfl
      | cons e2 r2 => simp [sameShapeList] at hsh
  | cons e1 r1 =>
      cases es2 with
      | nil => simp [sameShapeList] at hsh
      | cons e2 r2 =>
          have hsh1 : sameShape e1 e2 = true := by
            simp [sameShapeList] at hsh
            exact hsh.1
          have hsh2 : sameShapeList r1 r2 = true := by
            simp [sameShapeList] at hsh
            exact hsh.2
          have hn : e1.name = e2.name := sameShape_name hsh1
          have he : walkEntry wcfg (goJoin dirPath e1.name) e1 st =
              walkEntry wcfg (goJoin dirPath e2.name) e2 st := by
            rw [hn]
            exact walkEntry_shape wcfg hso e1 e2 (goJoin dirPath e2.name) st hsh1
          rw [walkChildren.eq_def, walkChildren.eq_def]
          show (match walkEntry wcfg (goJoin dirPath e1.name) e1 st with
            | (st2, some err) => (st2, some err)
            | (st2, none) => walkChildren wcfg dirPath r1 st2) =
            (match walkEntry wcfg (goJoin dirPath e2.name) e2 st with
            | (st2, some err) => (st2, some err)
            | (st2, none) => walkChildren wcfg dirPath r2 st2)
          rw [← he]
          cases hw : walkEntry wcfg (goJoin dirPath e1.name) e1 st with
          | mk st2 oerr =>
              cases oerr with
              | none => exact walkChildren_shape wcfg hso r1 r2 dirPath st2 hsh2
              | some err => rfl
end

theorem syncRunAux_shape (wcfg : WalkConfig) (hso : wcfg.sizeOnly = true)
    (root1 root2 : FSList) (remote : List (String × RFileInfo))
    (hsh : sameShapeList root1 root2 = true) :
    syncRunAux wcfg root1 remote = syncRunAux wcfg root2 remote := by
  simp only [syncRunAux]
  split
  · rfl
  · split
    · rfl
    · exact walkChildren_shape wcfg hso root1 root2 wcfg.localPath _ hsh

/-! ## Event-expansion lemmas -/

theorem expandEvents_nil (d : Bool) : expandEvents d [] = [] := rfl

theorem expandEvents_cons (d : Bool) (ae : AEvent) (aes : List AEvent) :
    expandEvents d (ae :: aes) = expandEvent d ae ++ expandEvents d aes := rfl

theorem putObject_not_mem_expand_dry (aes : List AEvent) (k : String) :
    Event.putObject k ∉ expandEvents true aes := by
  induction aes with
  | nil => simp [expandEvents]
  | cons ae rest ih =>
      rw [expandEvents_cons]
      intro hmem
      rcases List.mem_append.1 hmem with hmem | hmem
      · cases ae <;> simp [expandEvent] at hmem
      · exact ih hmem

theorem deleteObject_not_mem_expand_dry (aes : List AEvent) (k : String) :
    Event.deleteObject k ∉ expandEvents true aes := by
  induction aes with
  | nil => simp [expandEvents]
  | cons ae rest ih =>
      rw [expandEvents_cons]
      intro hmem
      rcases List.mem_append.1 hmem with hmem | hmem
      · cases ae <;> simp [expandEvent] at hmem
      · exact ih hmem

theorem countP_uploadingLog_expand (d : Bool) (aes : List AEvent) :
    (expandEvents d aes).countP isUploadingLog = aes.countP isUploadTask := by
  induction aes with
  | nil => simp [expandEvents]
  | cons ae rest ih =>
      rw [expandEvents_cons, List.countP_append, ih, List.countP_cons]
      cases ae <;> cases d <;>
        simp [expandEvent, isUploadingLog, isUploadTask, List.countP_cons] <;> omega

theorem countP_deletingLog_expand (d : Bool) (aes : List AEvent) :
    (expandEvents d aes).countP isDeletingLog = aes.countP isDeleteTask := by
  induction aes with
  | nil => simp [expandEvents]
  | cons ae rest ih =>
      rw [expandEvents_cons, List.countP_append, ih, List.countP_cons]
      cases ae <;> cases d <;>
        simp [expandEvent, isDeletingLog, isDeleteTask, List.countP_cons] <;> omega

theorem calcETag_mem_expand (d : Bool) (aes : List AEvent) (p : String) :
    Event.calcETagCall p ∈ expandEvents d aes ↔ AEvent.calcETagCall p ∈ aes := by
  induction aes with
  | nil => simp [expandEvents]
  | cons ae rest ih =>
      rw [expandEvents_cons]
      constructor
      · intro hmem
        rcases List.mem_append.1 hmem with hmem | hmem
        · cases ae <;> cases d <;> simp [expandEvent] at hmem <;> simp [hmem]
        · simp [ih.1 hmem]
      · intro hmem
        rcases List.mem_cons.1 hmem with hmem | hmem
        · rw [← hmem]
          simp [expandEvent]
        · exact List.mem_append.2 (Or.inr (ih.2 hmem))

/-! ## syncRunAux invariants -/

theorem syncRunAux_noDelete (wcfg : WalkConfig) (root : FSList)
    (remote : List (String × RFileInfo)) :
    ∀ k, Decision.deleteKey k ∉ (syncRunAux wcfg root remote).1.decisions :=
  syncRunAux_inv wcfg (fun st => ∀ k, Decision.deleteKey k ∉ st.decisions)
    (fun fp size etag st h => step_noDelete (processFile_spec wcfg fp size etag st) h)
    root remote (by simp)

theorem syncRunAux_claimInv (wcfg : WalkConfig) (root : FSList)
    (remote : List (String × RFileInfo)) :
    ClaimInv (syncRunAux wcfg root remote).1 :=
  syncRunAux_inv wcfg ClaimInv
    (fun fp size etag st h => step_claimInv (processFile_spec wcfg fp size etag st) h)
    root remote (by intro lp rk hmem; simp at hmem)

theorem syncRunAux_countUpload (wcfg : WalkConfig) (root : FSList)
    (remote : List (String × RFileInfo)) :
    (syncRunAux wcfg root remote).1.events.countP isUploadTask =
      (syncRunAux wcfg root remote).1.uploadCount :=
  syncRunAux_inv wcfg (fun st => st.events.countP isUploadTask = st.uploadCount)
    (fun fp size etag st h => step_countUpload (processFile_spec wcfg fp size etag st) h)
    root remote (by simp)

theorem syncRunAux_noDeleteTask (wcfg : WalkConfig) (root : FSList)
    (remote : List (String × RFileInfo)) :
    ∀ k, AEvent.deleteTask k ∉ (syncRunAux wcfg root remote).1.events :=
  syncRunAux_inv wcfg (fun st => ∀ k, AEvent.deleteTask k ∉ st.events)
    (fun fp size etag st h => step_noDeleteTask (processFile_spec wcfg fp size etag st) h)
    root remote (by simp)

theorem syncRunAux_noCalc (wcfg : WalkConfig) (root : FSList)
    (remote : List (String × RFileInfo)) (hso : wcfg.sizeOnly = true) :
    ∀ p, AEvent.calcETagCall p ∉ (syncRunAux wcfg root remote).1.events :=
  syncRunAux_inv wcfg (fun st => ∀ p, AEvent.calcETagCall p ∉ st.events)
    (fun fp size etag st h => step_noCalc (processFile_spec wcfg fp size etag st) hso h)
    root remote (by simp)

/-! ## syncRun-level characterizations -/

theorem syncRun_of_aux_error (cfg : SyncConfig) (c : Int) (root : FSList)
    (remote : List (String × RFileInfo)) (st : SyncState) (e : SyncError)
    (hw : syncRunAux cfg.walkConfig root remote = (st, some e)) :
    syncRun cfg c root remote =
      { res := Except.error e
        decisions := st.decisions
        events := preEvents cfg c ++ expandEvents cfg.dryRun st.events
        uploadCount := st.uploadCount
        deleteCount := 0
        finalRemote := st.remote } := by
  unfold syncRun
  rw [hw]

theorem syncRun_of_aux_ok_del (cfg : SyncConfig) (c : Int) (root : FSList)
    (remote : List (String × RFileInfo)) (st : SyncState)
    (hw : syncRunAux cfg.walkConfig root remote = (st, none))
    (hds : cfg.deleteSync = true ∧ st.remote ≠ []) :
    syncRun cfg c root remote =
      { res := Except.ok ()
        decisions := st.decisions ++ (st.remote.map (fun p => p.1)).map Decision.deleteKey
        events := preEvents cfg c ++
          expandEvents cfg.dryRun (st.events ++ (st.remote.map (fun p => p.1)).map AEvent.deleteTask)
        uploadCount := st.uploadCount
        deleteCount := (st.remote.map (fun p => p.1)).length
        finalRemote := st.remote } := by
  unfold syncRun
  rw [hw]
  simp only [if_pos hds]

theorem syncRun_of_aux_ok_nodel (cfg : SyncConfig) (c : Int) (root : FSList)
    (remote : List (String × RFileInfo)) (st : SyncState)
    (hw : syncRunAux cfg.walkConfig root remote = (st, none))
    (hds : ¬ (cfg.deleteSync = true ∧ st.remote ≠ [])) :
    syncRun cfg c root remote =
      { res := Except.ok ()
        decisions := st.decisions
        events := preEvents cfg c ++ expandEvents cfg.dryRun st.events
        uploadCount := st.uploadCount
        deleteCount := 0
        finalRemote := st.remote } := by
  unfold syncRun
  rw [hw]
  simp only [if_neg hds]

theorem syncRun_deleteKey_mem (cfg : SyncConfig) (c : Int) (root : FSList)
    (remote : List (String × RFileInfo)) (k : String) :
    Decision.deleteKey k ∈ (syncRun cfg c root remote).decisions ↔
      cfg.deleteSync = true ∧ (syncRun cfg c root remote).res = Except.ok () ∧
        k ∈ (syncRun cfg c root remote).finalRemote.map (fun p => p.1) := by
  have hnd := syncRunAux_noDelete cfg.walkConfig root remote
  cases hw : syncRunAux cfg.walkConfig root remote with
  | mk st oerr =>
      have hnd2 : ∀ k2, Decision.deleteKey k2 ∉ st.decisions := by
        intro k2
        have hx := hnd k2
        rw [hw] at hx
        exact hx
      cases oerr with
      | some e =>
          rw [syncRun_of_aux_error cfg c root remote st e hw]
          simp [hnd2 k]
      | none =>
          by_cases hcond : cfg.deleteSync = true ∧ st.remote ≠ []
          · rw [syncRun_of_aux_ok_del cfg c root remote st hw hcond]
            simp [hcond.1, List.mem_append, hnd2 k, List.mem_map]
          · rw [syncRun_of_aux_ok_nodel cfg c root remote st hw hcond]
            simp only [List.mem_map]
            constructor
            · intro hmem
              exact absurd hmem (hnd2 k)
            · rintro ⟨hds, -, p, hp, hpk⟩
              have hre : st.remote = [] := by
                by_contra hne
                exact hcond ⟨hds, hne⟩
              rw [hre] at hp
              simp at hp

theorem syncRun_claimed (cfg : SyncConfig) (c : Int) (root : FSList)
    (remote : List (String × RFileInfo)) (lp rk : String)
    (h : Decision.upload lp rk ∈ (syncRun cfg c root remote).decisions ∨
        Decision.skip lp rk ∈ (syncRun cfg c root remote).decisions) :
    lookupKey (syncRun cfg c root remote).finalRemote rk = none := by
  have hci := syncRunAux_claimInv cfg.walkConfig root remote
  cases hw : syncRunAux cfg.walkConfig root remote with
  | mk st oerr =>
      have hci2 : ClaimInv st := by
        rw [hw] at hci
        exact hci
      cases oerr with
      | some e =>
          rw [syncRun_of_aux_error cfg c root remote st e hw] at h ⊢
          exact hci2 lp rk h
      | none =>
          by_cases hcond : cfg.deleteSync = true ∧ st.remote ≠ []
          · rw [syncRun_of_aux_ok_del cfg c root remote st hw hcond] at h ⊢
            have h2 : Decision.upload lp rk ∈ st.decisions ∨
                Decision.skip lp rk ∈ st.decisions := by
              rcases h with h | h <;> rcases List.mem_append.1 h with h | h
              · exact Or.inl h
              · simp [List.mem_map] at h
              · exact Or.inr h
              · simp [List.mem_map] at h
            exact hci2 lp rk h2
          · rw [syncRun_of_aux_ok_nodel cfg c root remote st hw hcond] at h ⊢
            exact hci2 lp rk h

theorem countP_deleteTask_map (l : List String) :
    (l.map AEvent.deleteTask).countP isDeleteTask = l.length := by
  induction l with
  | nil => rfl
  | cons a rest ih => simp [List.countP_cons, isDeleteTask, ih]

theorem countP_uploadTask_map_delete (l : List String) :
    (l.map AEvent.deleteTask).countP isUploadTask = 0 := by
  induction l with
  | nil => rfl
  | cons a rest ih => simp [List.countP_cons, isUploadTask, ih]

/-! ## Claim theorems -/

/-- Claim C5: for every local candidate file (with a computable
fingerprint) and remote inventory entry, the diff classification of the
code is exactly the spec's identity rule: upload when the key is absent;
with the key present, upload iff sizes differ in size-only mode, and iff
sizes or fingerprints differ in full mode; skip exactly when the pair is
the same file (size matches and (size-only mode or fingerprints match)). -/
theorem c5_diff_classification (sizeOnly : Bool) (size : Int) (e : String)
    (ro : Option RFileInfo) :
    diffNeedUpload sizeOnly size (some e) ro =
      Except.ok (!specSameFile sizeOnly size e ro) := by
  cases ro with
  | none => simp [diffNeedUpload, specSameFile]
  | some ri =>
      cases sizeOnly <;> simp [diffNeedUpload, specSameFile]

/-- Claim C7: shouldExclude returns true iff some pattern glob-matches the
full path or glob-matches some segment of the path split on the
separator; a pattern that matches neither (in particular a malformed
pattern, whose match always errors) contributes nothing and causes no
error; consequently the result does not depend on the order of the
patterns. -/
theorem c7_shouldExclude_spec (fullpath : String) (patterns : List String) :
    (shouldExclude fullpath patterns = true ↔
      ∃ pat ∈ patterns, pathMatch pat fullpath = some true ∨
        ∃ part ∈ stringsSplit fullpath, pathMatch pat part = some true) ∧
    (∀ pat ps, pathMatch pat fullpath = none →
        (∀ part ∈ stringsSplit fullpath, pathMatch pat part = none) →
        shouldExclude fullpath (pat :: ps) = shouldExclude fullpath ps) ∧
    (∀ qs, patterns.Perm qs →
        shouldExclude fullpath patterns = shouldExclude fullpath qs) := by
  refine ⟨?_, ?_, ?_⟩
  · simp [shouldExclude, List.any_eq_true]
  · intro pat ps h1 h2
    have hf : ((stringsSplit fullpath).any
        (fun part => decide (pathMatch pat part = some true))) = false := by
      rw [List.any_eq_false]
      intro part hp
      simp [h2 part hp]
    simp [shouldExclude, List.any_cons, h1, hf]
  · intro qs hperm
    have hiff : shouldExclude fullpath patterns = true ↔
        shouldExclude fullpath qs = true := by
      simp only [shouldExclude, List.any_eq_true]
      constructor
      · rintro ⟨pat, hmem, hp⟩
        exact ⟨pat, hperm.mem_iff.1 hmem, hp⟩
      · rintro ⟨pat, hmem, hp⟩
        exact ⟨pat, hperm.mem_iff.2 hmem, hp⟩
    cases hA : shouldExclude fullpath patterns <;>
      cases hB : shouldExclude fullpath qs <;> simp_all

/-- Witness for C7 at a concrete path and pattern set, including a
malformed pattern (an unterminated bracket expression) and a transposed
pattern list. -/
theorem c7_shouldExclude_spec_witness :
    (shouldExclude "a/logs/b" ["logs", "x"] = true ↔
      ∃ pat ∈ ["logs", "x"], pathMatch pat "a/logs/b" = some true ∨
        ∃ part ∈ stringsSplit "a/logs/b", pathMatch pat part = some true) ∧
    shouldExclude "a/logs/b" ("[" :: ["logs", "x"]) =
      shouldExclude "a/logs/b" ["logs", "x"] ∧
    shouldExclude "a/logs/b" ["logs", "x"] = shouldExclude "a/logs/b" ["x", "logs"] :=
  ⟨(c7_shouldExclude_spec "a/logs/b" ["logs", "x"]).1,
   (c7_shouldExclude_spec "a/logs/b" ["logs", "x"]).2.1 "[" ["logs", "x"]
     (by decide) (by decide),
   (c7_shouldExclude_spec "a/logs/b" ["logs", "x"]).2.2 ["x", "logs"]
     (List.Perm.swap "x" "logs" [])⟩

/-- Claim C2, counterexample to the delete half: the pattern excludes the
directory src/logs (by segment match) while the file inside does not
itself match the pattern, yet with delete mode enabled the run produces a
Delete decision for the remote key under that directory. -/
theorem c2_counterexample :
    shouldExclude "src/logs" ["logs"] = true ∧
    pathMatch "logs" "a.txt" = some false ∧
    Decision.deleteKey "pre/logs/a.txt" ∈ (syncRun cfgC2 5 treeC2 remoteC2).decisions :=
  ⟨by decide, by decide, by decide⟩

/-- Claim C2 as amended: visiting an excluded path leaves the sync state
unchanged (the subtree is pruned, so no file beneath an excluded
directory is classified or uploaded); however, exclusion does not filter
the delete phase: a Delete decision is produced exactly for the keys left
unclaimed in the inventory of a successful delete-mode run, including
keys corresponding to files under excluded directories. -/
theorem c2_exclusion_pruning :
    (∀ (wcfg : WalkConfig) (fullpath : String) (e : FSEntry) (st : SyncState),
        shouldExclude (normalizePath fullpath) wcfg.excludePatterns = true →
        walkEntry wcfg fullpath e st = (st, none)) ∧
    (∀ (cfg : SyncConfig) (c : Int) (root : FSList)
        (remote : List (String × RFileInfo)) (k : String),
        Decision.deleteKey k ∈ (syncRun cfg c root remote).decisions ↔
          cfg.deleteSync = true ∧ (syncRun cfg c root remote).res = Except.ok () ∧
            k ∈ (syncRun cfg c root remote).finalRemote.map (fun p => p.1)) := by
  constructor
  · intro wcfg fullpath e st h
    cases e <;> simp only [walkEntry.eq_def] <;> rw [if_pos h]
  · intro cfg c root remote k
    exact syncRun_deleteKey_mem cfg c root remote k

/-- Witness for C2: the excluded directory of the counterexample run is
pruned with the state unchanged, and the delete-membership
characterization instantiated at the stale key under it. -/
theorem c2_exclusion_pruning_witness :
    walkEntry cfgC2.walkConfig "src/logs"
        (FSEntry.dir "logs" (fsList [FSEntry.file "a.txt" 1 none])) stC2 = (stC2, none) ∧
    (Decision.deleteKey "pre/logs/a.txt" ∈ (syncRun cfgC2 5 treeC2 remoteC2).decisions ↔
      cfgC2.deleteSync = true ∧ (syncRun cfgC2 5 treeC2 remoteC2).res = Except.ok () ∧
        "pre/logs/a.txt" ∈
          (syncRun cfgC2 5 treeC2 remoteC2).finalRemote.map (fun p => p.1)) :=
  ⟨c2_exclusion_pruning.1 cfgC2.walkConfig "src/logs"
     (FSEntry.dir "logs" (fsList [FSEntry.file "a.txt" 1 none])) stC2 (by decide),
   c2_exclusion_pruning.2 cfgC2 5 treeC2 remoteC2 "pre/logs/a.txt"⟩

/-- Claim C4 (code bug): in non-recursive mode the parent-directory test
path.Dir(fullpath) != localPath also fires on the sync root itself, so
the root directory is pruned with SkipDir and the run produces no
decision at all for a root such as the directory data, although a file
directly inside the root should always yield a candidate; only the dot
root (whose own parent is the dot path) behaves as the claim states. -/
theorem c4_nonrecursive_root_pruned :
    pathDir (normalizePath cfgC4.localPath) ≠ cfgC4.localPath ∧
    (syncRun cfgC4 5 treeC4 []).decisions = [] ∧
    (syncRun cfgC4 5 treeC4 []).res = Except.ok () ∧
    (syncRun cfgC4dot 5 treeC4 []).decisions = [Decision.upload "a.txt" "pre/a.txt"] :=
  ⟨by decide, by decide, rfl, by decide⟩

/-- Claim C3, counterexample: with concurrency zero the run performs the
remote listing (network activity), constructs the admission semaphore
with capacity zero, and completes without reporting any configuration
error. -/
theorem c3_counterexample :
    (syncRun cfgC3 0 FSList.nil []).res = Except.ok () ∧
    (syncRun cfgC3 0 FSList.nil []).events =
      [Event.listObjects "pre", Event.mkSemaphore 0] :=
  ⟨rfl, by decide⟩

/-- Claim C3 as amended: the program performs no validation of the
concurrency value; for every value (zero and negative included) the run
first lists the remote prefix and then constructs the semaphore with that
same value, and the decisions, result, and counters are identical to
those of a run with any other concurrency value. -/
theorem c3_no_concurrency_validation (cfg : SyncConfig) (c c2 : Int)
    (root : FSList) (remote : List (String × RFileInfo)) :
    (syncRun cfg c root remote).events.take 2 =
      [Event.listObjects cfg.remotePath, Event.mkSemaphore c] ∧
    (syncRun cfg c root remote).res = (syncRun cfg c2 root remote).res ∧
    (syncRun cfg c root remote).decisions = (syncRun cfg c2 root remote).decisions ∧
    (syncRun cfg c root remote).uploadCount = (syncRun cfg c2 root remote).uploadCount ∧
    (syncRun cfg c root remote).deleteCount = (syncRun cfg c2 root remote).deleteCount := by
  cases hw : syncRunAux cfg.walkConfig root remote with
  | mk st oerr =>
      cases oerr with
      | some e =>
          rw [syncRun_of_aux_error cfg c root remote st e hw,
            syncRun_of_aux_error cfg c2 root remote st e hw]
          exact ⟨rfl, rfl, rfl, rfl, rfl⟩
      | none =>
          by_cases hcond : cfg.deleteSync = true ∧ st.remote ≠ []
          · rw [syncRun_of_aux_ok_del cfg c root remote st hw hcond,
              syncRun_of_aux_ok_del cfg c2 root remote st hw hcond]
            exact ⟨rfl, rfl, rfl, rfl, rfl⟩
          · rw [syncRun_of_aux_ok_nodel cfg c root remote st hw hcond,
              syncRun_of_aux_ok_nodel cfg c2 root remote st hw hcond]
            exact ⟨rfl, rfl, rfl, rfl, rfl⟩

/-- Claim C1, counterexample: a fingerprint failure on the only candidate
(whose key is present remotely, in full mode) makes Sync return an error;
no decision is produced and the delete phase does not run even though
delete mode is enabled and a stale remote key exists. -/
theorem c1_counterexample :
    (syncRun cfgC1 5 treeC1 remoteC1).res =
      Except.error (SyncError.fingerprint "data/a.txt") ∧
    (syncRun cfgC1 5 treeC1 remoteC1).decisions = [] ∧
    (syncRun cfgC1 5 treeC1 remoteC1).deleteCount = 0 :=
  ⟨rfl, by decide, by decide⟩

/-- Claim C1 as amended: a fingerprint computation failure on a candidate
whose remote key is present in the inventory (full mode) is a hard error
for the whole run: the walk callback returns the error and the walk
aborts, and whenever the run result is an error the delete phase has not
run (no delete is counted). -/
theorem c1_fingerprint_aborts :
    (∀ (wcfg : WalkConfig) (fp : String) (size : Int) (st : SyncState) (ri : RFileInfo),
        wcfg.sizeOnly = false →
        lookupKey st.remote (computeRemoteKey wcfg fp) = some ri →
        processFile wcfg fp size none st =
          ({ st with events := st.events ++ [AEvent.calcETagCall fp] },
            some (SyncError.fingerprint fp))) ∧
    (∀ (cfg : SyncConfig) (c : Int) (root : FSList)
        (remote : List (String × RFileInfo)) (e : SyncError),
        (syncRun cfg c root remote).res = Except.error e →
        (syncRun cfg c root remote).deleteCount = 0) := by
  constructor
  · intro wcfg fp size st ri hso hro
    exact processFile_error wcfg fp size st ri hso hro
  · intro cfg c root remote e h
    cases hw : syncRunAux cfg.walkConfig root remote with
    | mk st oerr =>
        cases oerr with
        | some e2 => rw [syncRun_of_aux_error cfg c root remote st e2 hw]
        | none =>
            by_cases hcond : cfg.deleteSync = true ∧ st.remote ≠ []
            · rw [syncRun_of_aux_ok_del cfg c root remote st hw hcond] at h
              simp at h
            · rw [syncRun_of_aux_ok_nodel cfg c root remote st hw hcond] at h
              simp at h

/-- Witness for C1: the fingerprint-failure step of the counterexample
run, and the absence of a delete phase in its (erroring) result. -/
theorem c1_fingerprint_aborts_witness :
    processFile cfgC1.walkConfig "data/a.txt" 1 none stC1 =
      ({ stC1 with events := stC1.events ++ [AEvent.calcETagCall "data/a.txt"] },
        some (SyncError.fingerprint "data/a.txt")) ∧
    (syncRun cfgC1 5 treeC1 remoteC1).deleteCount = 0 :=
  ⟨c1_fingerprint_aborts.1 cfgC1.walkConfig "data/a.txt" 1 stC1
     { size := 1, etag := "\"aa\"" } rfl (by decide),
   c1_fingerprint_aborts.2 cfgC1 5 treeC1 remoteC1
     (SyncError.fingerprint "data/a.txt") rfl⟩

/-- Claim C6: with delete mode disabled no Delete decision is ever
produced; in a successful delete-mode run a Delete decision is produced
exactly for the keys still unclaimed in the inventory after the whole
walk; and every classified candidate (uploaded or skipped) has claimed
its computed remote key, which is therefore absent from the final
inventory. -/
theorem c6_delete_by_subtraction (cfg : SyncConfig) (c : Int) (root : FSList)
    (remote : List (String × RFileInfo)) :
    (cfg.deleteSync = false →
      ∀ k, Decision.deleteKey k ∉ (syncRun cfg c root remote).decisions) ∧
    ((syncRun cfg c root remote).res = Except.ok () → ∀ k,
        (Decision.deleteKey k ∈ (syncRun cfg c root remote).decisions ↔
          cfg.deleteSync = true ∧
            k ∈ (syncRun cfg c root remote).finalRemote.map (fun p => p.1))) ∧
    (∀ lp rk, (Decision.upload lp rk ∈ (syncRun cfg c root remote).decisions ∨
        Decision.skip lp rk ∈ (syncRun cfg c root remote).decisions) →
      lookupKey (syncRun cfg c root remote).finalRemote rk = none) := by
  refine ⟨?_, ?_, fun lp rk h => syncRun_claimed cfg c root remote lp rk h⟩
  · intro hds k hmem
    rcases (syncRun_deleteKey_mem cfg c root remote k).1 hmem with ⟨h1, -, -⟩
    rw [hds] at h1
    cases h1
  · intro hok k
    have hch := syncRun_deleteKey_mem cfg c root remote k
    constructor
    · intro hmem
      rcases hch.1 hmem with ⟨h1, -, h3⟩
      exact ⟨h1, h3⟩
    · rintro ⟨h1, h3⟩
      exact hch.2 ⟨h1, hok, h3⟩

/-- Witness for C6: in the concrete delete-mode run, the stale key is a
Delete decision exactly because it remained unclaimed, and the skipped
candidate has claimed its key out of the final inventory. -/
theorem c6_delete_by_subtraction_witness :
    (Decision.deleteKey "pre/old.txt" ∈ (syncRun cfgC6 5 treeC6 remoteC6).decisions ↔
      cfgC6.deleteSync = true ∧
        "pre/old.txt" ∈ (syncRun cfgC6 5 treeC6 remoteC6).finalRemote.map (fun p => p.1)) ∧
    lookupKey (syncRun cfgC6 5 treeC6 remoteC6).finalRemote "pre/a.txt" = none :=
  ⟨(c6_delete_by_subtraction cfgC6 5 treeC6 remoteC6).2.1 rfl "pre/old.txt",
   (c6_delete_by_subtraction cfgC6 5 treeC6 remoteC6).2.2 "a.txt" "pre/a.txt"
     (Or.inr (by decide))⟩

/-- Claim C8: with dry-run enabled the run makes no storage mutation (no
putObject and no deleteObject event), while the decisions, counters,
result and final inventory are identical to the real run, every task is
still logged exactly as in the real run (the same number of
uploading/deleting log lines), and the log lines agree with the counters. -/
theorem c8_dry_run_frame (cfg : SyncConfig) (c : Int) (root : FSList)
    (remote : List (String × RFileInfo)) :
    (syncRun { cfg with dryRun := true } c root remote).decisions =
        (syncRun { cfg with dryRun := false } c root remote).decisions ∧
    (syncRun { cfg with dryRun := true } c root remote).uploadCount =
        (syncRun { cfg with dryRun := false } c root remote).uploadCount ∧
    (syncRun { cfg with dryRun := true } c root remote).deleteCount =
        (syncRun { cfg with dryRun := false } c root remote).deleteCount ∧
    (syncRun { cfg with dryRun := true } c root remote).res =
        (syncRun { cfg with dryRun := false } c root remote).res ∧
    (syncRun { cfg with dryRun := true } c root remote).finalRemote =
        (syncRun { cfg with dryRun := false } c root remote).finalRemote ∧
    (∀ k, Event.putObject k ∉ (syncRun { cfg with dryRun := true } c root remote).events) ∧
    (∀ k, Event.deleteObject k ∉ (syncRun { cfg with dryRun := true } c root remote).events) ∧
    (syncRun { cfg with dryRun := true } c root remote).events.countP isUploadingLog =
        (syncRun { cfg with dryRun := false } c root remote).events.countP isUploadingLog ∧
    (syncRun { cfg with dryRun := true } c root remote).events.countP isUploadingLog =
        (syncRun { cfg with dryRun := true } c root remote).uploadCount ∧
    (syncRun { cfg with dryRun := true } c root remote).events.countP isDeletingLog =
        (syncRun { cfg with dryRun := true } c root remote).deleteCount := by
  have hcnt := syncRunAux_countUpload cfg.walkConfig root remote
  have hndt := syncRunAux_noDeleteTask cfg.walkConfig root remote
  cases hw : syncRunAux cfg.walkConfig root remote with
  | mk st oerr =>
      have hcnt2 : st.events.countP isUploadTask = st.uploadCount := by
        rw [hw] at hcnt
        exact hcnt
      have hndt2 : ∀ k, AEvent.deleteTask k ∉ st.events := by
        rw [hw] at hndt
        exact hndt
      have hdel0 : st.events.countP isDeleteTask = 0 := by
        rw [List.countP_eq_zero]
        intro ae hae
        cases ae <;> simp [isDeleteTask]
        rename_i k2
        exact absurd hae (hndt2 k2)
      have hwT : syncRunAux ({ cfg with dryRun := true } : SyncConfig).walkConfig root remote =
          (st, oerr) := hw
      have hwF : syncRunAux ({ cfg with dryRun := false } : SyncConfig).walkConfig root remote =
          (st, oerr) := hw
      have hpre0u : ∀ d : Bool, (preEvents { cfg with dryRun := d } c).countP isUploadingLog = 0 := by
        intro d
        simp [preEvents, List.countP_cons, isUploadingLog]
      have hpre0d : ∀ d : Bool, (preEvents { cfg with dryRun := d } c).countP isDeletingLog = 0 := by
        intro d
        simp [preEvents, List.countP_cons, isDeletingLog]
      have hpre_put : ∀ (d : Bool) (k : String),
          Event.putObject k ∉ preEvents { cfg with dryRun := d } c := by
        intro d k
        simp [preEvents]
      have hpre_del : ∀ (d : Bool) (k : String),
          Event.deleteObject k ∉ preEvents { cfg with dryRun := d } c := by
        intro d k
        simp [preEvents]
      cases oerr with
      | some e =>
          rw [syncRun_of_aux_error { cfg with dryRun := true } c root remote st e hwT,
            syncRun_of_aux_error { cfg with dryRun := false } c root remote st e hwF]
          refine ⟨rfl, rfl, rfl, rfl, rfl, ?_, ?_, ?_, ?_, ?_⟩
          · intro k hmem
            rcases List.mem_append.1 hmem with hmem | hmem
            · exact hpre_put true k hmem
            · exact putObject_not_mem_expand_dry st.events k hmem
          · intro k hmem
            rcases List.mem_append.1 hmem with hmem | hmem
            · exact hpre_del true k hmem
            · exact deleteObject_not_mem_expand_dry st.events k hmem
          · rw [List.countP_append, List.countP_append, hpre0u true, hpre0u false,
              countP_uploadingLog_expand, countP_uploadingLog_expand]
          · rw [List.countP_append, hpre0u true, countP_uploadingLog_expand, hcnt2]
            simp
          · rw [List.countP_append, hpre0d true, countP_deletingLog_expand, hdel0]
      | none =>
          by_cases hcond : cfg.deleteSync = true ∧ st.remote ≠ []
          · have hcondT : ({ cfg with dryRun := true } : SyncConfig).deleteSync = true ∧
                st.remote ≠ [] := hcond
            have hcondF : ({ cfg with dryRun := false } : SyncConfig).deleteSync = true ∧
                st.remote ≠ [] := hcond
            rw [syncRun_of_aux_ok_del { cfg with dryRun := true } c root remote st hwT hcondT,
              syncRun_of_aux_ok_del { cfg with dryRun := false } c root remote st hwF hcondF]
            refine ⟨rfl, rfl, rfl, rfl, rfl, ?_, ?_, ?_, ?_, ?_⟩
            · intro k hmem
              rcases List.mem_append.1 hmem with hmem | hmem
              · exact hpre_put true k hmem
              · exact putObject_not_mem_expand_dry _ k hmem
            · intro k hmem
              rcases List.mem_append.1 hmem with hmem | hmem
              · exact hpre_del true k hmem
              · exact deleteObject_not_mem_expand_dry _ k hmem
            · rw [List.countP_append, List.countP_append, hpre0u true, hpre0u false,
                countP_uploadingLog_expand, countP_uploadingLog_expand]
            · rw [List.countP_append, hpre0u true, countP_uploadingLog_expand,
                List.countP_append, hcnt2, countP_uploadTask_map_delete]
              simp
            · rw [List.countP_append, hpre0d true, countP_deletingLog_expand,
                List.countP_append, hdel0, countP_deleteTask_map]
              simp
          · have hcondT : ¬ (({ cfg with dryRun := true } : SyncConfig).deleteSync = true ∧
                st.remote ≠ []) := hcond
            have hcondF : ¬ (({ cfg with dryRun := false } : SyncConfig).deleteSync = true ∧
                st.remote ≠ []) := hcond
            rw [syncRun_of_aux_ok_nodel { cfg with dryRun := true } c root remote st hwT hcondT,
              syncRun_of_aux_ok_nodel { cfg with dryRun := false } c root remote st hwF hcondF]
            refine ⟨rfl, rfl, rfl, rfl, rfl, ?_, ?_, ?_, ?_, ?_⟩
            · intro k hmem
              rcases List.mem_append.1 hmem with hmem | hmem
              · exact hpre_put true k hmem
              · exact putObject_not_mem_expand_dry st.events k hmem
            · intro k hmem
              rcases List.mem_append.1 hmem with hmem | hmem
              · exact hpre_del true k hmem
              · exact deleteObject_not_mem_expand_dry st.events k hmem
            · rw [List.countP_append, List.countP_append, hpre0u true, hpre0u false,
                countP_uploadingLog_expand, countP_uploadingLog_expand]
            · rw [List.countP_append, hpre0u true, countP_uploadingLog_expand, hcnt2]
              simp
            · rw [List.countP_append, hpre0d true, countP_deletingLog_expand, hdel0]

/-- Claim C10: in size-only mode the whole run (decisions, events,
counters, result) depends only on the names and sizes of the local files,
never on their contents: two runs over same-shaped trees are identical,
and the fingerprint calculator is never invoked (no calcETagCall event
occurs), so a file whose contents cannot be read still diffs normally. -/
theorem c10_size_only_noninterference (cfg : SyncConfig) (c : Int)
    (root1 root2 : FSList) (remote : List (String × RFileInfo))
    (hso : cfg.sizeOnly = true) (hsh : sameShapeList root1 root2 = true) :
    syncRun cfg c root1 remote = syncRun cfg c root2 remote ∧
    ∀ p, Event.calcETagCall p ∉ (syncRun cfg c root1 remote).events := by
  have hso2 : cfg.walkConfig.sizeOnly = true := hso
  constructor
  · unfold syncRun
    rw [syncRunAux_shape cfg.walkConfig hso2 root1 root2 remote hsh]
  · intro p hmem
    have hnc := syncRunAux_noCalc cfg.walkConfig root1 remote hso2
    cases hw : syncRunAux cfg.walkConfig root1 remote with
    | mk st oerr =>
        have hnc2 : ∀ q, AEvent.calcETagCall q ∉ st.events := by
          rw [hw] at hnc
          exact hnc
        cases oerr with
        | some e =>
            rw [syncRun_of_aux_error cfg c root1 remote st e hw] at hmem
            rcases List.mem_append.1 hmem with hmem | hmem
            · simp [preEvents] at hmem
            · exact hnc2 p ((calcETag_mem_expand cfg.dryRun st.events p).1 hmem)
        | none =>
            by_cases hcond : cfg.deleteSync = true ∧ st.remote ≠ []
            · rw [syncRun_of_aux_ok_del cfg c root1 remote st hw hcond] at hmem
              rcases List.mem_append.1 hmem with hmem | hmem
              · simp [preEvents] at hmem
              · have hin := (calcETag_mem_expand cfg.dryRun _ p).1 hmem
                rcases List.mem_append.1 hin with hin | hin
                · exact hnc2 p hin
                · simp [List.mem_map] at hin
            · rw [syncRun_of_aux_ok_nodel cfg c root1 remote st hw hcond] at hmem
              rcases List.mem_append.1 hmem with hmem | hmem
              · simp [preEvents] at hmem
              · exact hnc2 p ((calcETag_mem_expand cfg.dryRun st.events p).1 hmem)

/-- Witness for C10: two concrete same-shaped trees, one of whose file
fingerprints is unreadable, give identical runs with no fingerprint
computation. -/
theorem c10_size_only_noninterference_witness :
    syncRun cfgC10 5 treeC10a remoteC10 = syncRun cfgC10 5 treeC10b remoteC10 ∧
    Event.calcETagCall "a.txt" ∉ (syncRun cfgC10 5 treeC10a remoteC10).events :=
  ⟨(c10_size_only_noninterference cfgC10 5 treeC10a treeC10b remoteC10 rfl (by decide)).1,
   (c10_size_only_noninterference cfgC10 5 treeC10a treeC10b remoteC10 rfl (by decide)).2 "a.txt"⟩
